import Mathlib

/-!
# Verification of the normalization-and-merge subsystem of `tools/api_tools.py`

This file gives a shallow embedding of the record normalizer and the
load-merge-persist cache logic of `process_results` and `get_item_details`
(`src/tools/api_tools.py`), together with theorems settling the frozen claims
about that code.

The embedding models the Python dynamic semantics the code actually relies on:
JSON-shaped values, truthiness, `dict.get` with and without a default, `len`,
iteration, indexing, and `dict[key] = value` assignment (which preserves
insertion order, updating an existing key in place and appending a new key at
the end).  Operations that can raise are modelled in `Except PyErr`.
-/

/-- The Python exception kinds the modelled code can raise. -/
inductive PyErr where
  | typeError
  | keyError
  | indexError
deriving DecidableEq

/-- JSON-shaped Python values, as produced by `response.json()` and manipulated
by the code.  Dictionaries are insertion-ordered association lists; the keys of
every dictionary the code reads or writes are strings (JSON object keys). -/
inductive PyVal where
  | none
  | bool (b : Bool)
  | int (n : Int)
  | str (s : String)
  | list (xs : List PyVal)
  | dict (kvs : List (String × PyVal))

/-- A raw upstream record: the entries of a JSON object. -/
abbrev RawRecord := List (String × PyVal)

/-- First-occurrence lookup in an association list (Python dict lookup; keys of
a genuine Python dict are unique, so first occurrence is the occurrence). -/
def lookupKey : List (String × PyVal) → String → Option PyVal
  | [], _ => Option.none
  | (k', v) :: rest, k => if k' = k then some v else lookupKey rest k

/-- Python `item.get(k, dflt)`: the stored value (even if null) when the key is
present, otherwise the default. -/
def pyGet (item : RawRecord) (k : String) (dflt : PyVal) : PyVal :=
  match lookupKey item k with
  | some v => v
  | Option.none => dflt

/-- Python truthiness of a value. -/
def truthy : PyVal → Bool
  | PyVal.none => false
  | PyVal.bool b => b
  | PyVal.int n => n != 0
  | PyVal.str s => s ≠ ""
  | PyVal.list xs => !xs.isEmpty
  | PyVal.dict kvs => !kvs.isEmpty

/-- Python `a or b`: `a` when truthy, else `b`. -/
def pyOr (a b : PyVal) : PyVal := if truthy a then a else b

/-- Python `len(v)`: defined on strings, lists and dicts; `TypeError` on
`None`, booleans and numbers. -/
def pyLen : PyVal → Except PyErr Nat
  | PyVal.str s => Except.ok s.length
  | PyVal.list xs => Except.ok xs.length
  | PyVal.dict kvs => Except.ok kvs.length
  | _ => Except.error PyErr.typeError

/-- Python iteration `[x for x in v]`: characters of a string (as one-character
strings), elements of a list, keys of a dict; `TypeError` otherwise. -/
def pyIterList : PyVal → Except PyErr (List PyVal)
  | PyVal.str s => Except.ok (s.toList.map (fun c => PyVal.str (String.mk [c])))
  | PyVal.list xs => Except.ok xs
  | PyVal.dict kvs => Except.ok (kvs.map (fun p => PyVal.str p.1))
  | _ => Except.error PyErr.typeError

/-- Python `v[0]`: first element of a list, first character of a string,
integer-key lookup on a dict (a `KeyError` here, since the modelled dicts have
string keys), `TypeError` otherwise. -/
def pyIndexZero : PyVal → Except PyErr PyVal
  | PyVal.list [] => Except.error PyErr.indexError
  | PyVal.list (x :: _) => Except.ok x
  | PyVal.str s =>
    match s.toList with
    | [] => Except.error PyErr.indexError
    | c :: _ => Except.ok (PyVal.str (String.mk [c]))
  | PyVal.dict _ => Except.error PyErr.keyError
  | _ => Except.error PyErr.typeError

/-- The `"contributor[s]"` field expression of lines 60 and 150:
`[contributor for contributor in item.get('contributors',"") or item.get("contributor","")]`. -/
def contributorsField (item : RawRecord) : Except PyErr (List PyVal) :=
  pyIterList (pyOr (pyGet item "contributors" (PyVal.str ""))
                   (pyGet item "contributor" (PyVal.str "")))

/-- The `"thumbnail"` field expression of lines 64 and 153:
`item.get("image_url", ["None"])[0] if 0 < len(item.get("image_url")) else item.get("image_url", ["None"])`.
Note that the guard calls `len` on `item.get("image_url")` with no default, so
an absent (or null, or numeric) `image_url` raises `TypeError`. -/
def thumbnailField (item : RawRecord) : Except PyErr PyVal :=
  match pyLen (pyGet item "image_url" PyVal.none) with
  | Except.error e => Except.error e
  | Except.ok n =>
    if 0 < n then
      pyIndexZero (pyGet item "image_url" (PyVal.list [PyVal.str "None"]))
    else
      Except.ok (pyGet item "image_url" (PyVal.list [PyVal.str "None"]))

/-- The dict literal building `item_info` (lines 58-68 with the `date` field,
lines 148-157 without it).  Python evaluates the field expressions in source
order, so a `contributorsField` failure surfaces before a `thumbnailField`
failure. -/
def normalizeItem (item : RawRecord) (includeDate : Bool) :
    Except PyErr RawRecord :=
  match contributorsField item with
  | Except.error e => Except.error e
  | Except.ok contribs =>
  match thumbnailField item with
  | Except.error e => Except.error e
  | Except.ok thumb =>
  Except.ok
    ([("title", pyGet item "title" (PyVal.str "")),
      ("contributor[s]", PyVal.list contribs),
      ("description", pyGet item "description" (PyVal.str ""))]
     ++ (if includeDate then [("date", pyGet item "date" (PyVal.str ""))] else [])
     ++ [("link", pyGet item "id" (PyVal.str "")),
         ("thumbnail", thumb),
         ("digitized", pyGet item "digitized" (PyVal.bool false)),
         ("genre", pyGet item "genre" PyVal.none),
         ("subjects", pyGet item "subject" PyVal.none)])

/-- The content of a bucket's backing file: absent, present but not valid JSON
(`json.load` raises `JSONDecodeError`), or a parsed JSON value. -/
inductive FileContent where
  | absent
  | corrupt
  | json (v : PyVal)

/-- The load step (lines 51-55 / 138-142): read and parse the file, and on
`FileNotFoundError` or `JSONDecodeError` fall back to the empty dict. -/
def loadMapping : FileContent → PyVal
  | FileContent.absent => PyVal.dict []
  | FileContent.corrupt => PyVal.dict []
  | FileContent.json v => v

/-- Python `d[k] = v` on an insertion-ordered dict: replace the (first) binding
of `k` in place when present, otherwise append `(k, v)` at the end. -/
def dictSet : List (String × PyVal) → String → PyVal → List (String × PyVal)
  | [], k, v => [(k, v)]
  | (k', v') :: rest, k, v =>
    if k' = k then (k, v) :: rest else (k', v') :: dictSet rest k v

/-- Python `container[k] = v` (line 158): item assignment succeeds only on a
dict; on any other loaded value it raises `TypeError`. -/
def pySetItem (container : PyVal) (k : String) (v : PyVal) : Except PyErr PyVal :=
  match container with
  | PyVal.dict kvs => Except.ok (PyVal.dict (dictSet kvs k v))
  | _ => Except.error PyErr.typeError

/-- One iteration of the loop at lines 145-158 on a single raw result `item`:
`item['id']` (a `TypeError` on a non-dict, a `KeyError` when the key is
missing), then the `item_info` dict literal.  The identifier used as the
mapping key is the `id` value itself; the model covers string identifiers,
which is what the upstream JSON supplies (the `id` is the item's URL). -/
def itemStep (item : PyVal) : Except PyErr (String × PyVal) :=
  match item with
  | PyVal.dict entries =>
    match lookupKey entries "id" with
    | Option.none => Except.error PyErr.keyError
    | some idv =>
      match normalizeItem entries false with
      | Except.error e => Except.error e
      | Except.ok info =>
        match idv with
        | PyVal.str s => Except.ok (s, PyVal.dict info)
        | _ => Except.error PyErr.typeError
  | _ => Except.error PyErr.typeError

/-- The loop of lines 144-158: accumulate `item_ids` and upsert each
normalized record into `items_info` keyed by its `id`. -/
def processLoop : List PyVal → List String → PyVal →
    Except PyErr (List String × PyVal)
  | [], ids, info => Except.ok (ids, info)
  | item :: rest, ids, info =>
    match itemStep item with
    | Except.error e => Except.error e
    | Except.ok p =>
      match pySetItem info p.1 p.2 with
      | Except.error e => Except.error e
      | Except.ok info' => processLoop rest (ids ++ [p.1]) info'

/-- `process_results` on one bucket, given the current content of that
bucket's file: load (lines 138-142) then merge (lines 144-158). -/
def processResults (results : List PyVal) (file : FileContent) :
    Except PyErr (List String × PyVal) :=
  processLoop results [] (loadMapping file)

/-- `process_results` together with its effect on the bucket file: the write at
lines 160-161 happens only after the whole loop succeeds, so an exception
raised inside the loop leaves the file untouched. -/
def processResultsRun (results : List PyVal) (file : FileContent) :
    FileContent × Except PyErr (List String × PyVal) :=
  match processResults results file with
  | Except.ok r => (FileContent.json r.2, Except.ok r)
  | Except.error e => (file, Except.error e)

/-- `get_item_details` on the fetched item's record, given the current content
of the item bucket's file (lines 51-74): the loaded `item_info` is bound and
then unconditionally rebound to the freshly normalized record (line 58), so the
load result is dead; the single flat record is then written back. -/
def getItemDetails (item : RawRecord) (file : FileContent) :
    FileContent × Except PyErr RawRecord :=
  let _itemInfoLoaded := loadMapping file
  match normalizeItem item true with
  | Except.ok info => (FileContent.json (PyVal.dict info), Except.ok info)
  | Except.error e => (file, Except.error e)

/-- The (identifier, normalized record) pairs a batch of raw results produces,
in batch order. -/
def pairsOf (l : List PyVal) : List (String × PyVal) :=
  l.filterMap (fun item => (itemStep item).toOption)

/-- The identifiers of a batch, in batch order. -/
def batchIds (l : List PyVal) : List String := (pairsOf l).map Prod.fst

/-- A batch on which every per-item step succeeds. -/
def goodBatch (l : List PyVal) : Prop := ∀ item ∈ l, (itemStep item).isOk = true

/-- Folding a list of upserts over a dict, as the merge loop does. -/
def applyUpdates : List (String × PyVal) → List (String × PyVal) →
    List (String × PyVal)
  | kvs, [] => kvs
  | kvs, (k, v) :: rest => applyUpdates (dictSet kvs k v) rest

/-- The last value a list of upserts assigns to a key, if any. -/
def lastVal : List (String × PyVal) → String → Option PyVal
  | [], _ => Option.none
  | (k', v) :: rest, k =>
    match lastVal rest k with
    | some w => some w
    | Option.none => if k' = k then some v else Option.none

/-! ## Association-list algebra of `dictSet` and `applyUpdates` -/

theorem lookupKey_dictSet_self (m : List (String × PyVal)) (k : String) (v : PyVal) :
    lookupKey (dictSet m k v) k = some v := by
  induction m with
  | nil => simp [dictSet, lookupKey]
  | cons p t ih =>
    obtain ⟨a, b⟩ := p
    by_cases h : a = k
    · subst h; simp [dictSet, lookupKey]
    · simp [dictSet, lookupKey, h, ih]

theorem lookupKey_dictSet_ne (m : List (String × PyVal)) (j k : String) (w : PyVal)
    (h : j ≠ k) : lookupKey (dictSet m j w) k = lookupKey m k := by
  induction m with
  | nil => simp [dictSet, lookupKey, h]
  | cons p t ih =>
    obtain ⟨a, b⟩ := p
    by_cases ha : a = j
    · subst ha; simp [dictSet, lookupKey, h]
    · by_cases hak : a = k
      · subst hak; simp [dictSet, lookupKey, ha]
      · simp [dictSet, lookupKey, ha, hak, ih]

theorem isSome_lookupKey_dictSet (m : List (String × PyVal)) (j k : String) (w : PyVal)
    (h : (lookupKey m k).isSome = true) :
    (lookupKey (dictSet m j w) k).isSome = true := by
  by_cases hjk : j = k
  · subst hjk; simp [lookupKey_dictSet_self]
  · rw [lookupKey_dictSet_ne m j k w hjk]; exact h

theorem dictSet_dictSet_same (m : List (String × PyVal)) (k : String) (v w : PyVal) :
    dictSet (dictSet m k v) k w = dictSet m k w := by
  induction m with
  | nil => simp [dictSet]
  | cons p t ih =>
    obtain ⟨a, b⟩ := p
    by_cases h : a = k
    · subst h; simp [dictSet]
    · simp [dictSet, h, ih]

theorem dictSet_eq_self (m : List (String × PyVal)) (k : String) (v : PyVal)
    (h : lookupKey m k = some v) : dictSet m k v = m := by
  induction m with
  | nil => simp [lookupKey] at h
  | cons p t ih =>
    obtain ⟨a, b⟩ := p
    by_cases ha : a = k
    · subst ha
      simp [lookupKey] at h
      simp [dictSet, h]
    · simp [lookupKey, ha] at h
      simp [dictSet, ha, ih h]

theorem dictSet_comm (m : List (String × PyVal)) (j k : String) (v w : PyVal)
    (hjk : j ≠ k) (hk : (lookupKey m k).isSome = true) :
    dictSet (dictSet m k v) j w = dictSet (dictSet m j w) k v := by
  induction m with
  | nil => simp [lookupKey] at hk
  | cons p t ih =>
    obtain ⟨a, b⟩ := p
    by_cases hak : a = k
    · subst hak
      have hkj : ¬(a = j) := fun h => hjk h.symm
      simp [dictSet, hkj]
    · by_cases haj : a = j
      · subst haj
        simp [dictSet, hak, hjk]
      · simp [lookupKey, hak] at hk
        simp [dictSet, hak, haj, ih hk]

theorem lookupKey_applyUpdates_or (ps : List (String × PyVal)) :
    ∀ m k, lookupKey (applyUpdates m ps) k = Option.or (lastVal ps k) (lookupKey m k) := by
  induction ps with
  | nil =>
    intro m k
    cases h : lookupKey m k <;> simp [applyUpdates, lastVal, Option.or, h]
  | cons p rest ih =>
    intro m k
    obtain ⟨a, v⟩ := p
    show lookupKey (applyUpdates (dictSet m a v) rest) k = _
    rw [ih]
    cases hl : lastVal rest k with
    | some w => simp [lastVal, hl, Option.or]
    | none =>
      by_cases hak : a = k
      · subst hak
        simp [lastVal, hl, lookupKey_dictSet_self, Option.or]
      · simp [lastVal, hl, hak, lookupKey_dictSet_ne m a k v hak, Option.or]

theorem isSome_lookupKey_applyUpdates (ps : List (String × PyVal))
    (m : List (String × PyVal)) (k : String)
    (h : (lookupKey m k).isSome = true) :
    (lookupKey (applyUpdates m ps) k).isSome = true := by
  rw [lookupKey_applyUpdates_or]
  cases hl : lastVal ps k with
  | some w => rfl
  | none => simpa [Option.or] using h

theorem lastVal_eq_none_of_not_mem (ps : List (String × PyVal)) (k : String)
    (h : k ∉ ps.map Prod.fst) : lastVal ps k = Option.none := by
  induction ps with
  | nil => rfl
  | cons p rest ih =>
    obtain ⟨a, v⟩ := p
    simp only [List.map_cons, List.mem_cons] at h
    push_neg at h
    have hak : ¬(a = k) := fun hh => h.1 hh.symm
    simp [lastVal, ih h.2, hak]

theorem lastVal_isSome_iff (ps : List (String × PyVal)) (k : String) :
    (lastVal ps k).isSome = true ↔ k ∈ ps.map Prod.fst := by
  constructor
  · intro h
    by_contra hmem
    rw [lastVal_eq_none_of_not_mem ps k hmem] at h
    simp at h
  · intro hmem
    induction ps with
    | nil => simp at hmem
    | cons p rest ih =>
      obtain ⟨a, v⟩ := p
      simp only [List.map_cons, List.mem_cons] at hmem
      cases hl : lastVal rest k with
      | some w => simp [lastVal, hl]
      | none =>
        rcases hmem with hmem | hmem
        · simp [lastVal, hl, hmem.symm]
        · have := ih hmem
          rw [hl] at this
          simp at this

theorem lookupKey_applyUpdates_not_mem (ps m : List (String × PyVal)) (k : String)
    (h : k ∉ ps.map Prod.fst) :
    lookupKey (applyUpdates m ps) k = lookupKey m k := by
  rw [lookupKey_applyUpdates_or, lastVal_eq_none_of_not_mem ps k h]
  cases lookupKey m k <;> simp [Option.or]

theorem applyUpdates_dictSet_not_mem (ps : List (String × PyVal)) :
    ∀ m k v, (lookupKey m k).isSome = true → k ∉ ps.map Prod.fst →
      applyUpdates (dictSet m k v) ps = dictSet (applyUpdates m ps) k v := by
  induction ps with
  | nil => intro m k v _ _; rfl
  | cons p rest ih =>
    intro m k v hk hnot
    obtain ⟨j, w⟩ := p
    simp only [List.map_cons, List.mem_cons] at hnot
    push_neg at hnot
    have hjk : j ≠ k := fun hh => hnot.1 hh.symm
    show applyUpdates (dictSet (dictSet m k v) j w) rest = dictSet (applyUpdates (dictSet m j w) rest) k v
    rw [dictSet_comm m j k v w hjk hk]
    exact ih (dictSet m j w) k v (isSome_lookupKey_dictSet m j k w hk) hnot.2

theorem applyUpdates_dictSet_mem (ps : List (String × PyVal)) :
    ∀ m k v, (lookupKey m k).isSome = true → k ∈ ps.map Prod.fst →
      applyUpdates (dictSet m k v) ps = applyUpdates m ps := by
  induction ps with
  | nil => intro m k v _ hmem; simp at hmem
  | cons p rest ih =>
    intro m k v hk hmem
    obtain ⟨j, w⟩ := p
    by_cases hjk : j = k
    · subst hjk
      show applyUpdates (dictSet (dictSet m j v) j w) rest = applyUpdates (dictSet m j w) rest
      rw [dictSet_dictSet_same]
    · simp only [List.map_cons, List.mem_cons] at hmem
      rcases hmem with hmem | hmem
      · exact absurd hmem.symm hjk
      · show applyUpdates (dictSet (dictSet m k v) j w) rest = applyUpdates (dictSet m j w) rest
        rw [dictSet_comm m j k v w hjk hk]
        exact ih (dictSet m j w) k v (isSome_lookupKey_dictSet m j k w hk) hmem

theorem applyUpdates_idem (ps : List (String × PyVal)) :
    ∀ m, applyUpdates (applyUpdates m ps) ps = applyUpdates m ps := by
  induction ps with
  | nil => intro m; rfl
  | cons p t ih =>
    intro m
    obtain ⟨k, v⟩ := p
    show applyUpdates (dictSet (applyUpdates (dictSet m k v) t) k v) t =
      applyUpdates (dictSet m k v) t
    have hkR : (lookupKey (applyUpdates (dictSet m k v) t) k).isSome = true :=
      isSome_lookupKey_applyUpdates t (dictSet m k v) k
        (by simp [lookupKey_dictSet_self])
    by_cases hmem : k ∈ t.map Prod.fst
    · rw [applyUpdates_dictSet_mem t _ k v hkR hmem]
      exact ih (dictSet m k v)
    · rw [applyUpdates_dictSet_not_mem t _ k v hkR hmem, ih (dictSet m k v)]
      apply dictSet_eq_self
      rw [lookupKey_applyUpdates_or, lastVal_eq_none_of_not_mem t k hmem,
        lookupKey_dictSet_self]
      rfl

/-! ## Relating the merge loop to the pure fold -/

theorem pairsOf_cons_ok (item : PyVal) (rest : List PyVal) (s : String) (v : PyVal)
    (h : itemStep item = Except.ok (s, v)) :
    pairsOf (item :: rest) = (s, v) :: pairsOf rest := by
  simp [pairsOf, List.filterMap_cons, h, Except.toOption]

theorem batchIds_cons_ok (item : PyVal) (rest : List PyVal) (s : String) (v : PyVal)
    (h : itemStep item = Except.ok (s, v)) :
    batchIds (item :: rest) = s :: batchIds rest := by
  simp [batchIds, pairsOf_cons_ok item rest s v h]

theorem processLoop_ok_of_good (l : List PyVal) :
    ∀ ids kvs, goodBatch l →
      processLoop l ids (PyVal.dict kvs) =
        Except.ok (ids ++ batchIds l, PyVal.dict (applyUpdates kvs (pairsOf l))) := by
  induction l with
  | nil => intro ids kvs _; simp [processLoop, batchIds, pairsOf, applyUpdates]
  | cons item rest ih =>
    intro ids kvs hgood
    cases hstep : itemStep item with
    | error e =>
      have hit := hgood item (List.mem_cons_self item rest)
      rw [hstep] at hit
      simp [Except.isOk, Except.toBool] at hit
    | ok p =>
      obtain ⟨s, v⟩ := p
      have hrest : goodBatch rest := fun it hit => hgood it (List.mem_cons_of_mem _ hit)
      rw [batchIds_cons_ok item rest s v hstep, pairsOf_cons_ok item rest s v hstep]
      show (match itemStep item with
        | Except.error e => Except.error e
        | Except.ok p =>
          match pySetItem (PyVal.dict kvs) p.1 p.2 with
          | Except.error e => Except.error e
          | Except.ok info' => processLoop rest (ids ++ [p.1]) info') = _
      rw [hstep]
      show processLoop rest (ids ++ [s]) (PyVal.dict (dictSet kvs s v)) = _
      rw [ih (ids ++ [s]) (dictSet kvs s v) hrest]
      simp [applyUpdates]

theorem good_of_processLoop_ok (l : List PyVal) :
    ∀ ids info r, processLoop l ids info = Except.ok r → goodBatch l := by
  induction l with
  | nil => intro _ _ _ _ it hit; simp at hit
  | cons item rest ih =>
    intro ids info r hok it hit
    cases hstep : itemStep item with
    | error e =>
      exfalso
      rw [show processLoop (item :: rest) ids info = Except.error e by
        show (match itemStep item with
          | Except.error e => Except.error e
          | Except.ok p =>
            match pySetItem info p.1 p.2 with
            | Except.error e => Except.error e
            | Except.ok info' => processLoop rest (ids ++ [p.1]) info') = _
        rw [hstep]] at hok
      exact Except.noConfusion hok
    | ok p =>
      have hok' : (match pySetItem info p.1 p.2 with
          | Except.error e => (Except.error e : Except PyErr (List String × PyVal))
          | Except.ok info' => processLoop rest (ids ++ [p.1]) info') = Except.ok r := by
        rw [← hok]
        show _ = (match itemStep item with
          | Except.error e => Except.error e
          | Except.ok p =>
            match pySetItem info p.1 p.2 with
            | Except.error e => Except.error e
            | Except.ok info' => processLoop rest (ids ++ [p.1]) info')
        rw [hstep]
      rcases List.mem_cons.mp hit with hh | hh
      · subst hh; rw [hstep]; rfl
      · cases hset : pySetItem info p.1 p.2 with
        | error e => rw [hset] at hok'; exact Except.noConfusion hok'
        | ok info' =>
          rw [hset] at hok'
          exact ih (ids ++ [p.1]) info' r hok' it hh

theorem dict_of_processLoop_cons_ok (item : PyVal) (rest : List PyVal)
    (ids : List String) (info : PyVal) (r : List String × PyVal)
    (hok : processLoop (item :: rest) ids info = Except.ok r) :
    ∃ kvs, info = PyVal.dict kvs := by
  cases hstep : itemStep item with
  | error e =>
    exfalso
    rw [show processLoop (item :: rest) ids info = Except.error e by
      show (match itemStep item with
        | Except.error e => Except.error e
        | Except.ok p =>
          match pySetItem info p.1 p.2 with
          | Except.error e => Except.error e
          | Except.ok info' => processLoop rest (ids ++ [p.1]) info') = _
      rw [hstep]] at hok
    exact Except.noConfusion hok
  | ok p =>
    cases hinfo : info with
    | dict kvs => exact ⟨kvs, rfl⟩
    | none => exfalso
              rw [hinfo] at hok
              rw [show processLoop (item :: rest) ids PyVal.none = Except.error PyErr.typeError by
                show (match itemStep item with
                  | Except.error e => Except.error e
                  | Except.ok p =>
                    match pySetItem PyVal.none p.1 p.2 with
                    | Except.error e => Except.error e
                    | Except.ok info' => processLoop rest (ids ++ [p.1]) info') = _
                rw [hstep]; rfl] at hok
              exact Except.noConfusion hok
    | bool b => exfalso
                rw [hinfo] at hok
                rw [show processLoop (item :: rest) ids (PyVal.bool b) = Except.error PyErr.typeError by
                  show (match itemStep item with
                    | Except.error e => Except.error e
                    | Except.ok p =>
                      match pySetItem (PyVal.bool b) p.1 p.2 with
                      | Except.error e => Except.error e
                      | Except.ok info' => processLoop rest (ids ++ [p.1]) info') = _
                  rw [hstep]; rfl] at hok
                exact Except.noConfusion hok
    | int n => exfalso
               rw [hinfo] at hok
               rw [show processLoop (item :: rest) ids (PyVal.int n) = Except.error PyErr.typeError by
                 show (match itemStep item with
                   | Except.error e => Except.error e
                   | Except.ok p =>
                     match pySetItem (PyVal.int n) p.1 p.2 with
                     | Except.error e => Except.error e
                     | Except.ok info' => processLoop rest (ids ++ [p.1]) info') = _
                 rw [hstep]; rfl] at hok
               exact Except.noConfusion hok
    | str s => exfalso
               rw [hinfo] at hok
               rw [show processLoop (item :: rest) ids (PyVal.str s) = Except.error PyErr.typeError by
                 show (match itemStep item with
                   | Except.error e => Except.error e
                   | Except.ok p =>
                     match pySetItem (PyVal.str s) p.1 p.2 with
                     | Except.error e => Except.error e
                     | Except.ok info' => processLoop rest (ids ++ [p.1]) info') = _
                 rw [hstep]; rfl] at hok
               exact Except.noConfusion hok
    | list xs => exfalso
                 rw [hinfo] at hok
                 rw [show processLoop (item :: rest) ids (PyVal.list xs) = Except.error PyErr.typeError by
                   show (match itemStep item with
                     | Except.error e => Except.error e
                     | Except.ok p =>
                       match pySetItem (PyVal.list xs) p.1 p.2 with
                       | Except.error e => Except.error e
                       | Except.ok info' => processLoop rest (ids ++ [p.1]) info') = _
                   rw [hstep]; rfl] at hok
                 exact Except.noConfusion hok

theorem exists_ok_of_isOk {α : Type} {e : Except PyErr α} (h : e.isOk = true) :
    ∃ x, e = Except.ok x := by
  cases e with
  | error f => simp [Except.isOk, Except.toBool] at h
  | ok x => exact ⟨x, rfl⟩

theorem processLoop_cons_err (item : PyVal) (rest : List PyVal) (ids : List String)
    (info : PyVal) (e : PyErr) (h : itemStep item = Except.error e) :
    processLoop (item :: rest) ids info = Except.error e := by
  simp only [processLoop, h]

theorem processLoop_cons_ok (item : PyVal) (rest : List PyVal) (ids : List String)
    (kvs : List (String × PyVal)) (s : String) (v : PyVal)
    (h : itemStep item = Except.ok (s, v)) :
    processLoop (item :: rest) ids (PyVal.dict kvs) =
      processLoop rest (ids ++ [s]) (PyVal.dict (dictSet kvs s v)) := by
  simp only [processLoop, h, pySetItem]

theorem processLoop_err_of_bad (pre : List PyVal) :
    ∀ (ids : List String) (kvs : List (String × PyVal)) (item : PyVal)
      (post : List PyVal) (e : PyErr),
      (∀ i ∈ pre, (itemStep i).isOk = true) → itemStep item = Except.error e →
      processLoop (pre ++ item :: post) ids (PyVal.dict kvs) = Except.error e := by
  induction pre with
  | nil =>
    intro ids kvs item post e _ hbad
    exact processLoop_cons_err item post ids (PyVal.dict kvs) e hbad
  | cons p pre' ih =>
    intro ids kvs item post e hgood hbad
    obtain ⟨q, hq⟩ := exists_ok_of_isOk (hgood p (List.mem_cons_self p pre'))
    obtain ⟨s, v⟩ := q
    rw [List.cons_append, processLoop_cons_ok p (pre' ++ item :: post) ids kvs s v hq]
    exact ih _ _ item post e (fun i hi => hgood i (List.mem_cons_of_mem _ hi)) hbad

theorem lastVal_append (ps qs : List (String × PyVal)) (k : String) :
    lastVal (ps ++ qs) k = Option.or (lastVal qs k) (lastVal ps k) := by
  induction ps with
  | nil =>
    simp only [List.nil_append, lastVal]
    cases lastVal qs k <;> rfl
  | cons p ps' ih =>
    obtain ⟨a, v⟩ := p
    rw [List.cons_append]
    show (match lastVal (ps' ++ qs) k with
      | some w => some w
      | Option.none => if a = k then some v else Option.none) = _
    rw [ih]
    cases hq : lastVal qs k with
    | some w => simp [lastVal, Option.or]
    | none =>
      cases hp : lastVal ps' k with
      | some w => simp [lastVal, hp, Option.or]
      | none => simp [lastVal, hp, Option.or]

theorem pairsOf_append (l₁ l₂ : List PyVal) :
    pairsOf (l₁ ++ l₂) = pairsOf l₁ ++ pairsOf l₂ := by
  simp [pairsOf, List.filterMap_append]

/-! ## Claim theorems -/

/-- C1, counterexample: normalizing the record with `image_url` present and
equal to the empty list succeeds, but its thumbnail field is the raw empty
list, not the literal string "None" as the claim states. -/
theorem thumbnail_empty_seq_not_none_marker :
    normalizeItem [("image_url", PyVal.list [])] false =
      Except.ok [("title", PyVal.str ""), ("contributor[s]", PyVal.list []),
        ("description", PyVal.str ""), ("link", PyVal.str ""),
        ("thumbnail", PyVal.list []), ("digitized", PyVal.bool false),
        ("genre", PyVal.none), ("subjects", PyVal.none)] ∧
    PyVal.list [] ≠ PyVal.str "None" :=
  ⟨rfl, fun h => PyVal.noConfusion h⟩

/-- C1 (amended): for every raw record whose `image_url` field is present and
equal to the empty sequence, the thumbnail computation performs no
out-of-range index access: the `0 < len` guard fails and the expression
falls through to the raw value, so the thumbnail field equals the raw empty
list `[]` (not the literal string "None"); whenever full normalization
succeeds, the resulting record's thumbnail field is that empty list. -/
theorem thumbnail_empty_seq_raw_fallthrough (item : RawRecord)
    (h : lookupKey item "image_url" = some (PyVal.list [])) :
    thumbnailField item = Except.ok (PyVal.list []) ∧
    ∀ r, normalizeItem item false = Except.ok r →
      lookupKey r "thumbnail" = some (PyVal.list []) := by
  have hthumb : thumbnailField item = Except.ok (PyVal.list []) := by
    simp [thumbnailField, pyGet, h, pyLen]
  refine ⟨hthumb, ?_⟩
  intro r hr
  cases hc : contributorsField item with
  | error e =>
    simp only [normalizeItem, hc] at hr
    exact Except.noConfusion hr
  | ok cs =>
    simp only [normalizeItem, hc, hthumb] at hr
    have hinj := Except.ok.inj hr
    subst hinj
    simp [lookupKey]

/-- C1, witness. -/
theorem thumbnail_empty_seq_raw_fallthrough_witness :
    thumbnailField [("image_url", PyVal.list [])] = Except.ok (PyVal.list []) ∧
    lookupKey [("title", PyVal.str ""), ("contributor[s]", PyVal.list []),
        ("description", PyVal.str ""), ("link", PyVal.str ""),
        ("thumbnail", PyVal.list []), ("digitized", PyVal.bool false),
        ("genre", PyVal.none), ("subjects", PyVal.none)] "thumbnail" =
      some (PyVal.list []) :=
  ⟨(thumbnail_empty_seq_raw_fallthrough [("image_url", PyVal.list [])] rfl).1,
   (thumbnail_empty_seq_raw_fallthrough [("image_url", PyVal.list [])] rfl).2 _ rfl⟩

/-- C2: the claim of total, error-free normalization is contradicted by the
code.  The thumbnail guard calls `len(item.get("image_url"))` with no default,
so any record lacking `image_url` — in particular the empty record, on both the
`get_item_details` path (with date) and the `process_results` path (without) —
raises `TypeError` instead of degrading to defaults. -/
theorem normalize_missing_image_url_raises :
    normalizeItem [] true = Except.error PyErr.typeError ∧
    normalizeItem [] false = Except.error PyErr.typeError ∧
    normalizeItem [("title", PyVal.str "t"), ("id", PyVal.str "u")] false =
      Except.error PyErr.typeError :=
  ⟨rfl, rfl, rfl⟩

/-- C3: normalizing the empty record `{}` on the multi-result search path does
not produce the default record the claim describes: `process_results` raises
`KeyError` at `item['id']` (line 147) and persists nothing, and even the
`item_info` dict literal itself raises `TypeError` at `len(None)` (line 153). -/
theorem process_results_empty_record_raises :
    processResultsRun [PyVal.dict []] FileContent.absent =
      (FileContent.absent, Except.error PyErr.keyError) ∧
    normalizeItem [] false = Except.error PyErr.typeError :=
  ⟨rfl, rfl⟩

/-- C4: the load-merge-persist cycle of `process_results` is idempotent — for
every bucket file state and every batch of raw records, running the cycle a
second time with the same query and records leaves the persisted mapping (and
the returned value) exactly as after the first run. -/
theorem process_results_idempotent (results : List PyVal) (file : FileContent) :
    processResultsRun results (processResultsRun results file).1 =
      processResultsRun results file := by
  cases hrun : processResults results file with
  | error e => simp [processResultsRun, hrun]
  | ok r =>
    obtain ⟨ids, m⟩ := r
    have hrun2 : processResults results (FileContent.json m) = Except.ok (ids, m) := by
      cases results with
      | nil =>
        have hm : loadMapping file = m ∧ ids = [] := by
          have hl : processLoop [] [] (loadMapping file) = Except.ok (ids, m) := hrun
          simp [processLoop] at hl
          exact ⟨hl.2, hl.1⟩
        show processLoop [] [] (loadMapping (FileContent.json m)) = _
        simp [processLoop, loadMapping, hm.2]
      | cons it rest =>
        have hloop : processLoop (it :: rest) [] (loadMapping file) = Except.ok (ids, m) := hrun
        obtain ⟨kvs₀, hkvs⟩ := dict_of_processLoop_cons_ok it rest [] (loadMapping file) (ids, m) hloop
        have hgood := good_of_processLoop_ok (it :: rest) [] (loadMapping file) (ids, m) hloop
        rw [hkvs] at hloop
        rw [processLoop_ok_of_good (it :: rest) [] kvs₀ hgood] at hloop
        have hpair := Except.ok.inj hloop
        have hids : [] ++ batchIds (it :: rest) = ids := congrArg Prod.fst hpair
        have hm : PyVal.dict (applyUpdates kvs₀ (pairsOf (it :: rest))) = m :=
          congrArg Prod.snd hpair
        show processLoop (it :: rest) [] (loadMapping (FileContent.json m)) = _
        show processLoop (it :: rest) [] m = _
        rw [← hm, processLoop_ok_of_good (it :: rest) [] _ hgood,
          applyUpdates_idem, hids]
    simp [processResultsRun, hrun, hrun2]

/-- C8, counterexample: normalizing `{"contributor": "X"}` does not yield a
record at all — the record lacks `image_url`, so the thumbnail guard raises
`TypeError` before the normalized record is produced. -/
theorem normalize_contributor_only_raises :
    normalizeItem [("contributor", PyVal.str "X")] false =
      Except.error PyErr.typeError := rfl

/-- C8 (amended): the contributors selection policy holds as claimed at the
level of the `contributor[s]` field expression: the plural `contributors`
field is preferred; when it is absent or present-but-falsy the singular
`contributor` field is used; when both are absent the result is the empty
sequence; and for `{"contributor": "X"}` the computed field is `["X"]`.
However, full normalization of `{"contributor": "X"}` raises `TypeError` at
the thumbnail computation (absent `image_url`), so no normalized record is
yielded for that input. -/
theorem contributors_fallback_policy :
    contributorsField [("contributor", PyVal.str "X")] = Except.ok [PyVal.str "X"] ∧
    (∀ item : RawRecord, lookupKey item "contributors" = Option.none →
      lookupKey item "contributor" = Option.none →
      contributorsField item = Except.ok []) ∧
    (∀ (item : RawRecord) (v : PyVal), lookupKey item "contributors" = some v →
      truthy v = true → contributorsField item = pyIterList v) ∧
    (∀ (item : RawRecord) (v : PyVal), lookupKey item "contributors" = some v →
      truthy v = false →
      contributorsField item = pyIterList (pyGet item "contributor" (PyVal.str ""))) ∧
    (∀ item : RawRecord, lookupKey item "contributors" = Option.none →
      contributorsField item = pyIterList (pyGet item "contributor" (PyVal.str ""))) := by
  refine ⟨rfl, ?_, ?_, ?_, ?_⟩
  · intro item h1 h2
    simp [contributorsField, pyGet, h1, h2, pyOr, truthy, pyIterList]
  · intro item v hv htv
    simp [contributorsField, pyGet, hv, pyOr, htv]
  · intro item v hv htv
    simp [contributorsField, pyGet, hv, pyOr, htv]
  · intro item h1
    simp [contributorsField, pyGet, h1, pyOr, truthy]

/-- C8, witness. -/
theorem contributors_fallback_policy_witness :
    contributorsField [("title", PyVal.str "x")] = Except.ok [] :=
  contributors_fallback_policy.2.1 [("title", PyVal.str "x")] rfl rfl

/-- C5: the merge is non-destructive to unrelated keys.  For an existing
persisted mapping containing identifiers `a` and `b` and a successfully
processed batch whose records all carry identifier `c` distinct from `a` and
`b`, the run persists a mapping that still binds `a` and `b` to their exact
previous entries, binds `c`, and more generally leaves every identifier not in
the batch bound exactly as before (entries are replaced only when their
identifier reappears). -/
theorem merge_preserves_unrelated_keys (kvs₀ : List (String × PyVal)) (l : List PyVal)
    (a b c : String) (va vb : PyVal)
    (hgood : goodBatch l)
    (ha : lookupKey kvs₀ a = some va) (hb : lookupKey kvs₀ b = some vb)
    (hc : c ∈ batchIds l) (hac : a ≠ c) (hbc : b ≠ c)
    (honly : ∀ s ∈ batchIds l, s = c) :
    processResultsRun l (FileContent.json (PyVal.dict kvs₀)) =
      (FileContent.json (PyVal.dict (applyUpdates kvs₀ (pairsOf l))),
       Except.ok (batchIds l, PyVal.dict (applyUpdates kvs₀ (pairsOf l)))) ∧
    lookupKey (applyUpdates kvs₀ (pairsOf l)) a = some va ∧
    lookupKey (applyUpdates kvs₀ (pairsOf l)) b = some vb ∧
    (lookupKey (applyUpdates kvs₀ (pairsOf l)) c).isSome = true ∧
    ∀ x, x ∉ batchIds l →
      lookupKey (applyUpdates kvs₀ (pairsOf l)) x = lookupKey kvs₀ x := by
  have hframe : ∀ x, x ∉ batchIds l →
      lookupKey (applyUpdates kvs₀ (pairsOf l)) x = lookupKey kvs₀ x := by
    intro x hx
    exact lookupKey_applyUpdates_not_mem (pairsOf l) kvs₀ x hx
  have hamem : a ∉ batchIds l := fun hmem => hac (honly a hmem)
  have hbmem : b ∉ batchIds l := fun hmem => hbc (honly b hmem)
  refine ⟨?_, ?_, ?_, ?_, hframe⟩
  · have hloop := processLoop_ok_of_good l [] kvs₀ hgood
    simp [processResultsRun, processResults, loadMapping, hloop]
  · rw [hframe a hamem]; exact ha
  · rw [hframe b hbmem]; exact hb
  · rw [lookupKey_applyUpdates_or]
    obtain ⟨w, hw⟩ := Option.isSome_iff_exists.mp ((lastVal_isSome_iff (pairsOf l) c).mpr hc)
    rw [hw]
    rfl

/-- C5, witness. -/
theorem merge_preserves_unrelated_keys_witness :
    processResultsRun [PyVal.dict [("id", PyVal.str "C"), ("image_url", PyVal.list [PyVal.str "u"])]]
        (FileContent.json (PyVal.dict [("A", PyVal.str "1"), ("B", PyVal.str "2")])) =
      (FileContent.json (PyVal.dict (applyUpdates [("A", PyVal.str "1"), ("B", PyVal.str "2")]
          (pairsOf [PyVal.dict [("id", PyVal.str "C"), ("image_url", PyVal.list [PyVal.str "u"])]]))),
       Except.ok (batchIds [PyVal.dict [("id", PyVal.str "C"), ("image_url", PyVal.list [PyVal.str "u"])]],
         PyVal.dict (applyUpdates [("A", PyVal.str "1"), ("B", PyVal.str "2")]
          (pairsOf [PyVal.dict [("id", PyVal.str "C"), ("image_url", PyVal.list [PyVal.str "u"])]])))) ∧
    lookupKey (applyUpdates [("A", PyVal.str "1"), ("B", PyVal.str "2")]
        (pairsOf [PyVal.dict [("id", PyVal.str "C"), ("image_url", PyVal.list [PyVal.str "u"])]])) "A" =
      some (PyVal.str "1") ∧
    lookupKey (applyUpdates [("A", PyVal.str "1"), ("B", PyVal.str "2")]
        (pairsOf [PyVal.dict [("id", PyVal.str "C"), ("image_url", PyVal.list [PyVal.str "u"])]])) "B" =
      some (PyVal.str "2") ∧
    (lookupKey (applyUpdates [("A", PyVal.str "1"), ("B", PyVal.str "2")]
        (pairsOf [PyVal.dict [("id", PyVal.str "C"), ("image_url", PyVal.list [PyVal.str "u"])]])) "C").isSome = true := by
  have h := merge_preserves_unrelated_keys
    [("A", PyVal.str "1"), ("B", PyVal.str "2")]
    [PyVal.dict [("id", PyVal.str "C"), ("image_url", PyVal.list [PyVal.str "u"])]]
    "A" "B" "C" (PyVal.str "1") (PyVal.str "2")
    (by intro it hit
        rw [List.mem_singleton] at hit
        subst hit
        rfl)
    rfl rfl (by decide) (by decide) (by decide) (by decide)
  exact ⟨h.1, h.2.1, h.2.2.1, h.2.2.2.1⟩

/-- C6: corrupt-cache recovery.  When the bucket's backing file is absent or
does not parse as JSON, the read failure is swallowed, the existing mapping is
treated as empty, and a successfully processed batch persists a mapping whose
bound identifiers are exactly those of the newly merged records. -/
theorem corrupt_cache_recovery (l : List PyVal) (file : FileContent)
    (hgood : goodBatch l)
    (hfile : file = FileContent.absent ∨ file = FileContent.corrupt) :
    processResultsRun l file =
      (FileContent.json (PyVal.dict (applyUpdates [] (pairsOf l))),
       Except.ok (batchIds l, PyVal.dict (applyUpdates [] (pairsOf l)))) ∧
    ∀ x, (lookupKey (applyUpdates [] (pairsOf l)) x).isSome = true ↔ x ∈ batchIds l := by
  have hload : loadMapping file = PyVal.dict [] := by
    rcases hfile with h | h <;> subst h <;> rfl
  constructor
  · have hloop := processLoop_ok_of_good l [] [] hgood
    simp [processResultsRun, processResults, hload, hloop]
  · intro x
    rw [lookupKey_applyUpdates_or]
    cases hl : lastVal (pairsOf l) x with
    | some w =>
      simp only [Option.or, lookupKey, Option.isSome_some, true_iff]
      exact (lastVal_isSome_iff (pairsOf l) x).mp (by rw [hl]; rfl)
    | none =>
      simp only [Option.or, lookupKey, Option.isSome_none]
      constructor
      · intro hfalse
        exact absurd hfalse (by simp)
      · intro hmem
        have hs := (lastVal_isSome_iff (pairsOf l) x).mpr hmem
        rw [hl] at hs
        simp at hs

/-- C6, witness. -/
theorem corrupt_cache_recovery_witness :
    processResultsRun [PyVal.dict [("id", PyVal.str "A"), ("image_url", PyVal.list [PyVal.str "u"])]]
        FileContent.corrupt =
      (FileContent.json (PyVal.dict (applyUpdates []
          (pairsOf [PyVal.dict [("id", PyVal.str "A"), ("image_url", PyVal.list [PyVal.str "u"])]]))),
       Except.ok (batchIds [PyVal.dict [("id", PyVal.str "A"), ("image_url", PyVal.list [PyVal.str "u"])]],
         PyVal.dict (applyUpdates []
          (pairsOf [PyVal.dict [("id", PyVal.str "A"), ("image_url", PyVal.list [PyVal.str "u"])]])))) ∧
    (lookupKey (applyUpdates []
        (pairsOf [PyVal.dict [("id", PyVal.str "A"), ("image_url", PyVal.list [PyVal.str "u"])]])) "A").isSome = true := by
  have h := corrupt_cache_recovery
    [PyVal.dict [("id", PyVal.str "A"), ("image_url", PyVal.list [PyVal.str "u"])]]
    FileContent.corrupt
    (by intro it hit
        rw [List.mem_singleton] at hit
        subst hit
        rfl)
    (Or.inr rfl)
  exact ⟨h.1, (h.2 "A").mpr (by decide)⟩

/-- C7: overwrite-on-recurrence.  If the batch contains a record whose
identifier `a` does not recur later in the batch, then for ANY prior mapping
the persisted entry for `a` is exactly the normalization of that new raw
record — every field of the stored entry is derived from the new record and
nothing is inherited from whatever entry `a` had before. -/
theorem overwrite_on_recurrence (pre post : List PyVal) (item : PyVal)
    (entries info : RawRecord) (a : String)
    (hgood : goodBatch (pre ++ item :: post))
    (hitem : item = PyVal.dict entries)
    (hid : lookupKey entries "id" = some (PyVal.str a))
    (hnorm : normalizeItem entries false = Except.ok info)
    (hlastocc : a ∉ batchIds post) :
    ∀ kvs₀ : List (String × PyVal),
      processResultsRun (pre ++ item :: post) (FileContent.json (PyVal.dict kvs₀)) =
        (FileContent.json (PyVal.dict (applyUpdates kvs₀ (pairsOf (pre ++ item :: post)))),
         Except.ok (batchIds (pre ++ item :: post),
           PyVal.dict (applyUpdates kvs₀ (pairsOf (pre ++ item :: post))))) ∧
      lookupKey (applyUpdates kvs₀ (pairsOf (pre ++ item :: post))) a =
        some (PyVal.dict info) := by
  intro kvs₀
  have hstep : itemStep item = Except.ok (a, PyVal.dict info) := by
    subst hitem
    simp [itemStep, hid, hnorm]
  have hlast : lastVal (pairsOf (pre ++ item :: post)) a = some (PyVal.dict info) := by
    rw [pairsOf_append, lastVal_append, pairsOf_cons_ok item post a (PyVal.dict info) hstep]
    have hpost : lastVal (pairsOf post) a = Option.none :=
      lastVal_eq_none_of_not_mem (pairsOf post) a hlastocc
    show Option.or (match lastVal (pairsOf post) a with
      | some w => some w
      | Option.none => if a = a then some (PyVal.dict info) else Option.none) _ = _
    rw [hpost]
    simp [Option.or]
  constructor
  · have hloop := processLoop_ok_of_good (pre ++ item :: post) [] kvs₀ hgood
    simp [processResultsRun, processResults, loadMapping, hloop]
  · rw [lookupKey_applyUpdates_or, hlast]
    rfl

/-- C7, witness. -/
theorem overwrite_on_recurrence_witness :
    processResultsRun [PyVal.dict [("id", PyVal.str "A"), ("image_url", PyVal.list [PyVal.str "u"])]]
        (FileContent.json (PyVal.dict [("A", PyVal.str "old")])) =
      (FileContent.json (PyVal.dict (applyUpdates [("A", PyVal.str "old")]
          (pairsOf [PyVal.dict [("id", PyVal.str "A"), ("image_url", PyVal.list [PyVal.str "u"])]]))),
       Except.ok (batchIds [PyVal.dict [("id", PyVal.str "A"), ("image_url", PyVal.list [PyVal.str "u"])]],
         PyVal.dict (applyUpdates [("A", PyVal.str "old")]
          (pairsOf [PyVal.dict [("id", PyVal.str "A"), ("image_url", PyVal.list [PyVal.str "u"])]])))) ∧
    lookupKey (applyUpdates [("A", PyVal.str "old")]
        (pairsOf [PyVal.dict [("id", PyVal.str "A"), ("image_url", PyVal.list [PyVal.str "u"])]])) "A" =
      some (PyVal.dict
        [("title", PyVal.str ""), ("contributor[s]", PyVal.list []),
         ("description", PyVal.str ""), ("link", PyVal.str "A"),
         ("thumbnail", PyVal.str "u"), ("digitized", PyVal.bool false),
         ("genre", PyVal.none), ("subjects", PyVal.none)]) :=
  overwrite_on_recurrence [] []
    (PyVal.dict [("id", PyVal.str "A"), ("image_url", PyVal.list [PyVal.str "u"])])
    [("id", PyVal.str "A"), ("image_url", PyVal.list [PyVal.str "u"])]
    [("title", PyVal.str ""), ("contributor[s]", PyVal.list []),
     ("description", PyVal.str ""), ("link", PyVal.str "A"),
     ("thumbnail", PyVal.str "u"), ("digitized", PyVal.bool false),
     ("genre", PyVal.none), ("subjects", PyVal.none)]
    "A"
    (by intro it hit
        rw [List.nil_append, List.mem_singleton] at hit
        subst hit
        rfl)
    rfl rfl rfl
    (by simp [batchIds, pairsOf])
    [("A", PyVal.str "old")]

/-- C9 (implicit): if any record in the batch is an object lacking the key
`id`, `process_results` raises and the bucket file is never written, so the
batch is not partially persisted; when every record before the offending one
processes cleanly (and the loaded mapping is a dict), the raised error is
precisely the key-lookup failure `KeyError`. -/
theorem missing_id_aborts_before_write :
    (∀ (l : List PyVal) (file : FileContent),
      (∃ item ∈ l, ∃ entries, item = PyVal.dict entries ∧
        lookupKey entries "id" = Option.none) →
      (processResultsRun l file).1 = file ∧
        (processResultsRun l file).2.isOk = false) ∧
    (∀ (pre post : List PyVal) (item : PyVal) (entries : RawRecord)
        (kvs : List (String × PyVal)),
      (∀ i ∈ pre, (itemStep i).isOk = true) →
      item = PyVal.dict entries → lookupKey entries "id" = Option.none →
      processResultsRun (pre ++ item :: post) (FileContent.json (PyVal.dict kvs)) =
        (FileContent.json (PyVal.dict kvs), Except.error PyErr.keyError)) := by
  constructor
  · intro l file hbad
    obtain ⟨item, hmem, entries, hitem, hid⟩ := hbad
    cases hrun : processResults l file with
    | error e => simp [processResultsRun, hrun, Except.isOk, Except.toBool]
    | ok r =>
      exfalso
      have hgood := good_of_processLoop_ok l [] (loadMapping file) r hrun
      have hit := hgood item hmem
      rw [hitem] at hit
      simp [itemStep, hid, Except.isOk, Except.toBool] at hit
  · intro pre post item entries kvs hpre hitem hid
    have hbad : itemStep item = Except.error PyErr.keyError := by
      subst hitem
      simp [itemStep, hid]
    have hloop := processLoop_err_of_bad pre [] kvs item post PyErr.keyError hpre hbad
    simp [processResultsRun, processResults, loadMapping, hloop]

/-- C9, witness. -/
theorem missing_id_aborts_before_write_witness :
    processResultsRun [PyVal.dict [("title", PyVal.str "t")]] (FileContent.json (PyVal.dict [])) =
      (FileContent.json (PyVal.dict []), Except.error PyErr.keyError) :=
  missing_id_aborts_before_write.2 [] [] (PyVal.dict [("title", PyVal.str "t")])
    [("title", PyVal.str "t")] []
    (by intro i hi; simp at hi) rfl rfl

/-- C10 (implicit): `get_item_details` is independent of the prior cache
contents — for any two states of the item bucket file (absent, corrupt, or any
JSON value), the returned result is identical, and whenever normalization of
the fetched item succeeds, both runs persist the same single flat normalized
record (not an id-keyed mapping): the loaded mapping is unconditionally
discarded. -/
theorem get_item_details_cache_independent (item : RawRecord) (f₁ f₂ : FileContent) :
    (getItemDetails item f₁).2 = (getItemDetails item f₂).2 ∧
    ∀ info, normalizeItem item true = Except.ok info →
      (getItemDetails item f₁).1 = FileContent.json (PyVal.dict info) ∧
      (getItemDetails item f₂).1 = FileContent.json (PyVal.dict info) := by
  cases h : normalizeItem item true with
  | error e =>
    constructor
    · simp [getItemDetails, h]
    · intro info hinfo
      exact Except.noConfusion hinfo
  | ok info =>
    constructor
    · simp [getItemDetails, h]
    · intro info' hinfo
      have hinj := Except.ok.inj hinfo
      subst hinj
      simp [getItemDetails, h]

/-- C10, witness. -/
theorem get_item_details_cache_independent_witness :
    (getItemDetails [("image_url", PyVal.list [PyVal.str "u"])] FileContent.absent).2 =
      (getItemDetails [("image_url", PyVal.list [PyVal.str "u"])] FileContent.corrupt).2 ∧
    (getItemDetails [("image_url", PyVal.list [PyVal.str "u"])] FileContent.absent).1 =
      FileContent.json (PyVal.dict
        [("title", PyVal.str ""), ("contributor[s]", PyVal.list []),
         ("description", PyVal.str ""), ("date", PyVal.str ""),
         ("link", PyVal.str ""), ("thumbnail", PyVal.str "u"),
         ("digitized", PyVal.bool false), ("genre", PyVal.none),
         ("subjects", PyVal.none)]) ∧
    (getItemDetails [("image_url", PyVal.list [PyVal.str "u"])] FileContent.corrupt).1 =
      FileContent.json (PyVal.dict
        [("title", PyVal.str ""), ("contributor[s]", PyVal.list []),
         ("description", PyVal.str ""), ("date", PyVal.str ""),
         ("link", PyVal.str ""), ("thumbnail", PyVal.str "u"),
         ("digitized", PyVal.bool false), ("genre", PyVal.none),
         ("subjects", PyVal.none)]) :=
  ⟨(get_item_details_cache_independent [("image_url", PyVal.list [PyVal.str "u"])]
      FileContent.absent FileContent.corrupt).1,
   ((get_item_details_cache_independent [("image_url", PyVal.list [PyVal.str "u"])]
      FileContent.absent FileContent.corrupt).2 _ rfl).1,
   ((get_item_details_cache_independent [("image_url", PyVal.list [PyVal.str "u"])]
      FileContent.absent FileContent.corrupt).2 _ rfl).2⟩

